import Mathlib

/-!
Formal model of the RTL-SDR real-time waterfall application (src/main.py).

The numeric pipeline of WaterfallApp is embedded as pure functions over ℝ and ℂ
(the exact-arithmetic idealisation of the numpy float pipeline):

* transform           — the spectral-transform slice of update_once (lines 177-186):
                        DC removal, Hann windowing (with numpy broadcasting semantics
                        for the elementwise product), FFT with centering shift,
                        magnitude, and conversion to dB.
* np_percentile99     — np.percentile(a, 99) with numpy's default linear interpolation.
* wf_push             — the clamp-and-scroll waterfall update (lines 200-204).
* update_once         — one full tick (lines 170-207), taking the outcome of the
                        blocking SampleSource read as an explicit argument.
* apply_settings      — the reconfiguration step (lines 139-168); the Python float()
                        parse of the gain text is abstracted as a parameter
                        parseFloat : String → Option ℝ.
* update_freq_axis    — the frequency-axis mapping (lines 127-134).

The mutable WaterfallApp object is modelled by the structure WaterfallState holding
exactly the fields the modelled operations read or write.  The device object (RtlSdr)
is modelled by its stored parameters (sdr_center_freq, sdr_sample_rate, sdr_gain);
hardware quantisation of those parameters is outside the model.
-/

/-- Error taxonomy of the specification (§7): InvalidInput for malformed data
reaching the pipeline, DeviceError for SampleSource read/configure failures. -/
inductive SdrError where
  | InvalidInput
  | DeviceError
deriving DecidableEq

/-- The gain field of the device: the string "auto" or a fixed gain in dB. -/
inductive GainSetting where
  | auto
  | fixed (db : ℝ)

/-- numpy np.clip(v, lo, hi): saturating clamp, equivalent to
np.minimum(hi, np.maximum(v, lo)). -/
noncomputable def npClip (v lo hi : ℝ) : ℝ := min hi (max lo v)

/-- numpy np.fft.fftshift for a one-dimensional array of length n:
np.roll(a, n / 2), i.e. the last n - n / 2 entries move to the front. -/
def fftshiftL {α : Type} (a : List α) : List α :=
  a.drop (a.length - a.length / 2) ++ a.take (a.length - a.length / 2)

/-- numpy np.hanning(M): the Hann window, w j = 0.5 - 0.5 cos (2 π j / (M - 1)),
with np.hanning 1 = [1]. -/
noncomputable def np_hanning (M : ℕ) : List ℝ :=
  if M = 1 then [1]
  else (List.range M).map fun j : ℕ => 0.5 - 0.5 * Real.cos (2 * Real.pi * (j : ℝ) / ((M : ℝ) - 1))

/-- numpy np.fft.fft(x, n): x is cropped or zero-padded to length n, then the
discrete Fourier transform X k = Σ j, x j · exp (-2 π i j k / n) is taken. -/
noncomputable def npfft (n : ℕ) (x : List ℂ) : List ℂ :=
  let xp := x.take n ++ List.replicate (n - x.length) 0
  (List.range n).map fun k : ℕ =>
    ∑ j in Finset.range n,
      xp.getD j 0 * Complex.exp (-2 * Real.pi * Complex.I * (j : ℂ) * (k : ℂ) / (n : ℂ))

/-- numpy elementwise product of two one-dimensional arrays, including the
shape-(1,) broadcasting rule: equal lengths multiply pointwise, a length-1
operand is broadcast over the other, and any other shape pair is an error. -/
def broadcastMul (a b : List ℂ) : Option (List ℂ) :=
  if a.length = b.length then some (List.zipWith (· * ·) a b)
  else if a.length = 1 then some (b.map fun y => a.headD 0 * y)
  else if b.length = 1 then some (a.map fun x => x * b.headD 0)
  else none

/-- The spectral-transform slice of WaterfallApp.update_once (src/main.py lines
177-186): subtract the block mean (DC removal), multiply by the window (numpy
broadcasting), FFT at size nfft with centering shift, magnitude, and
20 · log10 (mag + 1e-12).  A broadcast shape failure is the InvalidInput error. -/
noncomputable def transform (nfft : ℕ) (window : List ℝ) (iq : List ℂ) :
    Except SdrError (List ℝ) :=
  let centered := iq.map fun z => z - iq.sum / (iq.length : ℂ)
  match broadcastMul centered (window.map Complex.ofReal) with
  | none => .error .InvalidInput
  | some x =>
      let X := fftshiftL (npfft nfft x)
      let mag := X.map fun z => Complex.abs z
      .ok (mag.map fun m => 20 * Real.logb 10 (m + 1e-12))

/-- numpy np.percentile(a, 99) with the default linear interpolation: with s the
ascending sort of a and h = 0.99 · (length - 1) the virtual index, the result is
s⌊h⌋ + (h - ⌊h⌋) · (s⌊h⌋₊₁ - s⌊h⌋).  The integer and fractional parts of h are
computed exactly as 99 · (length - 1) / 100 and (99 · (length - 1) mod 100) / 100. -/
noncomputable def np_percentile99 (a : List ℝ) : ℝ :=
  let s := a.insertionSort (· ≤ ·)
  let pos := 99 * (a.length - 1)
  let lo := s.getD (pos / 100) 0
  let hi := s.getD (pos / 100 + 1) lo
  lo + ((pos % 100 : ℕ) : ℝ) / 100 * (hi - lo)

/-- numpy np.fft.fftfreq(n, d): entry k is k / (n d) for k < (n-1)/2 + 1 = (n+1)/2
and (k - n) / (n d) for the remaining entries. -/
noncomputable def np_fftfreq (n : ℕ) (d : ℝ) : List ℝ :=
  (List.range n).map fun k : ℕ =>
    (if k < (n + 1) / 2 then (k : ℝ) else (k : ℝ) - (n : ℝ)) / ((n : ℝ) * d)

/-- WaterfallApp.update_freq_axis (src/main.py lines 127-134): the per-column
frequency axis in MHz, fftshift (fftfreq nfft (1 / sample_rate)) + center, / 1e6. -/
noncomputable def update_freq_axis (nfft : ℕ) (sample_rate center : ℝ) : List ℝ :=
  (fftshiftL (np_fftfreq nfft (1 / sample_rate))).map fun f => (f + center) / 1e6

/-- The waterfall update of src/main.py lines 200-204: clamp the spectrum into
[lo, hi], scroll every row up by one, and write the clamped spectrum as the last
row (waterfall[:-1] = waterfall[1:]; waterfall[-1] = clipped spectrum). -/
noncomputable def wf_push (wf : List (List ℝ)) (spectrum : List ℝ) (lo hi : ℝ) :
    List (List ℝ) :=
  wf.tail ++ [spectrum.map fun v => npClip v lo hi]

/-- The mutable state of WaterfallApp that the modelled operations touch. -/
@[ext]
structure WaterfallState where
  sdr_center_freq : ℝ
  sdr_sample_rate : ℝ
  sdr_gain : GainSetting
  nfft : ℕ
  fps : ℕ
  waterfall_rows : ℕ
  dynamic_range_db : ℝ
  window : List ℝ
  waterfall : List (List ℝ)
  db_max_smooth : Option ℝ
  freqs_mhz : List ℝ
  timer_ms : ℕ
  closing : Bool

/-- WaterfallApp.apply_settings (src/main.py lines 139-168).  Inputs are the
widget values: center frequency in MHz, sample rate in MS/s, the raw gain text,
the FFT combo choice, and the FPS spin value.  parseFloat abstracts Python's
float() parse (None models a ValueError).  gain_text is the result of the
stripping and lowercasing of line 145 (gain_input.text().strip().lower());
"auto" selects auto gain, a parse failure keeps the prior gain.
A changed FFT size rebuilds the Hann window, refills the waterfall with -120,
and clears the smoothed-ceiling state — the three rebuilds are written as
branches on the same condition, mirroring the single Python if-block.  The
timer restarts at int(1000 / fps) ms and the frequency axis is recomputed from
the new nfft and device parameters. -/
noncomputable def apply_settings (parseFloat : String → Option ℝ) (s : WaterfallState)
    (freq_val sr_val : ℝ) (gain_text : String) (fft_choice fps_val : ℕ) : WaterfallState :=
  { s with
    sdr_center_freq := freq_val * 1e6
    sdr_sample_rate := sr_val * 1e6
    sdr_gain :=
      if gain_text = "auto" then .auto
      else
        match parseFloat gain_text with
        | some g => .fixed g
        | none => s.sdr_gain
    nfft := if fft_choice ≠ s.nfft then fft_choice else s.nfft
    window := if fft_choice ≠ s.nfft then np_hanning fft_choice else s.window
    waterfall :=
      if fft_choice ≠ s.nfft then
        List.replicate s.waterfall_rows (List.replicate fft_choice (-120))
      else s.waterfall
    db_max_smooth := if fft_choice ≠ s.nfft then none else s.db_max_smooth
    fps := fps_val
    timer_ms := 1000 / fps_val
    freqs_mhz :=
      update_freq_axis (if fft_choice ≠ s.nfft then fft_choice else s.nfft)
        (sr_val * 1e6) (freq_val * 1e6) }

/-- WaterfallApp.update_once (src/main.py lines 170-207): one tick.  The outcome
of the blocking SampleSource read is an explicit argument; a raised read error
aborts the tick before any mutation.  On success: spectral transform, 99th
percentile as ceiling candidate, first-observation or 0.9/0.1 EMA smoothing of
the ceiling, floor = ceiling - dynamic_range_db, then clamp-and-scroll push. -/
noncomputable def update_once (s : WaterfallState) (read_result : Except SdrError (List ℂ)) :
    WaterfallState × Option SdrError :=
  if s.closing then (s, none)
  else
    match read_result with
    | .error e => (s, some e)
    | .ok iq =>
      match transform s.nfft s.window iq with
      | .error e => (s, some e)
      | .ok power_db =>
        let new_db_max := np_percentile99 power_db
        let smooth :=
          match s.db_max_smooth with
          | none => new_db_max
          | some prev => 0.9 * prev + 0.1 * new_db_max
        let db_max := smooth
        let db_min := db_max - s.dynamic_range_db
        ({ s with
            db_max_smooth := some smooth
            waterfall := wf_push s.waterfall power_db db_min db_max }, none)

/-- The §3 invariant: window length, waterfall row count and every row's column
count agree with the configured FFT size and row count. -/
def invariantHolds (s : WaterfallState) : Prop :=
  s.window.length = s.nfft ∧ s.waterfall.length = s.waterfall_rows ∧
    ∀ r ∈ s.waterfall, r.length = s.nfft

/-! ### Basic length and zero-spectrum lemmas -/

lemma np_hanning_length (M : ℕ) : (np_hanning M).length = M := by
  unfold np_hanning
  split
  next h => simp [h]
  next h => simp

lemma npfft_length (n : ℕ) (x : List ℂ) : (npfft n x).length = n := by
  simp [npfft]

lemma fftshiftL_length {α : Type} (a : List α) : (fftshiftL a).length = a.length := by
  simp only [fftshiftL, List.length_append, List.length_drop, List.length_take]
  omega

lemma fftshiftL_replicate {α : Type} (n : ℕ) (a : α) :
    fftshiftL (List.replicate n a) = List.replicate n a := by
  unfold fftshiftL
  rw [List.length_replicate, List.drop_replicate, List.take_replicate,
    Nat.min_eq_left (Nat.sub_le _ _), ← List.replicate_add]
  congr 1
  omega

lemma getD_zero_of_forall {l : List ℂ} (h : ∀ a ∈ l, a = 0) (j : ℕ) : l.getD j 0 = 0 := by
  rcases Nat.lt_or_ge j l.length with hj | hj
  · rw [List.getD_eq_getElem _ _ hj]
    exact h _ (List.getElem_mem hj)
  · exact List.getD_eq_default _ _ hj

lemma mem_pad_zero {x : List ℂ} (h : ∀ a ∈ x, a = 0) {n : ℕ} :
    ∀ a ∈ x.take n ++ List.replicate (n - x.length) (0 : ℂ), a = 0 := by
  intro a ha
  rcases List.mem_append.1 ha with h1 | h2
  · exact h a (List.take_subset n x h1)
  · exact List.eq_of_mem_replicate h2

lemma npfft_zero (n : ℕ) {x : List ℂ} (h : ∀ a ∈ x, a = 0) :
    npfft n x = List.replicate n 0 := by
  rw [List.eq_replicate_iff]
  refine ⟨npfft_length n x, ?_⟩
  intro b hb
  simp only [npfft, List.mem_map, List.mem_range] at hb
  obtain ⟨k, hk, rfl⟩ := hb
  refine Finset.sum_eq_zero fun j hj => ?_
  rw [getD_zero_of_forall (mem_pad_zero h) j, zero_mul]

lemma zipWith_mul_zero : ∀ (l₁ l₂ : List ℂ), (∀ a ∈ l₁, a = 0) →
    ∀ b ∈ List.zipWith (· * ·) l₁ l₂, b = 0 := by
  intro l₁
  induction l₁ with
  | nil => intro l₂ h b hb; simp at hb
  | cons a t ih =>
    intro l₂ h b hb
    cases l₂ with
    | nil => simp at hb
    | cons c u =>
      simp only [List.zipWith_cons_cons, List.mem_cons] at hb
      rcases hb with rfl | hb
      · rw [h a (by simp), zero_mul]
      · exact ih u (fun x hx => h x (by simp [hx])) b hb

lemma log_spectrum_zero (n : ℕ) {x : List ℂ} (hx : ∀ a ∈ x, a = 0) :
    ((fftshiftL (npfft n x)).map fun z => Complex.abs z).map
        (fun m => 20 * Real.logb 10 (m + 1e-12)) =
      List.replicate n (20 * Real.logb 10 (1e-12)) := by
  rw [npfft_zero n hx, fftshiftL_replicate, List.map_replicate, List.map_replicate]
  simp

lemma transform_replicate_zero (n : ℕ) :
    transform n (np_hanning n) (List.replicate n 0) =
      .ok (List.replicate n (20 * Real.logb 10 (1e-12))) := by
  have hcent : (List.replicate n (0 : ℂ)).map
      (fun z => z - (List.replicate n (0 : ℂ)).sum / ((List.replicate n (0 : ℂ)).length : ℂ)) =
      List.replicate n 0 := by
    simp
  have hx : ∀ b ∈ List.zipWith (· * ·) (List.replicate n (0 : ℂ))
      ((np_hanning n).map Complex.ofReal), b = 0 :=
    zipWith_mul_zero _ _ fun a ha => List.eq_of_mem_replicate ha
  have hb : broadcastMul (List.replicate n (0 : ℂ)) ((np_hanning n).map Complex.ofReal) =
      some (List.zipWith (· * ·) (List.replicate n 0) ((np_hanning n).map Complex.ofReal)) := by
    unfold broadcastMul
    rw [if_pos]
    simp [np_hanning_length]
  simp only [transform, hcent, hb]
  exact congrArg Except.ok (log_spectrum_zero n hx)

/-! ### Claims C6 and C1: the spectral transform on mismatched and all-zero blocks -/

/-- Claim C6: for every fftSize N, the spectral transform applied to an all-zero
block of length N produces a spectrum in which every one of the N bins equals
20 · log10 epsilon with epsilon = 1e-12. -/
theorem claim_C6 (n : ℕ) (_hn : 0 < n) :
    transform n (np_hanning n) (List.replicate n 0) =
      .ok (List.replicate n (20 * Real.logb 10 (1e-12))) :=
  transform_replicate_zero n

theorem claim_C6_witness :
    0 < 1024 ∧
      transform 1024 (np_hanning 1024) (List.replicate 1024 0) =
        .ok (List.replicate 1024 (20 * Real.logb 10 (1e-12))) :=
  ⟨by norm_num, claim_C6 1024 (by norm_num)⟩

/-- Claim C1, counterexample: a block of length 1 differs from the configured
fftSize 1024, yet the transform does not fail — numpy broadcasts the single
sample across the window and a full 1024-bin spectrum is produced. -/
theorem claim_C1_counterexample :
    [(0 : ℂ)].length ≠ 1024 ∧
      transform 1024 (np_hanning 1024) [(0 : ℂ)] =
        .ok (List.replicate 1024 (20 * Real.logb 10 (1e-12))) := by
  refine ⟨by norm_num, ?_⟩
  have hcent : ([(0 : ℂ)]).map
      (fun z => z - ([(0 : ℂ)]).sum / (([(0 : ℂ)]).length : ℂ)) = [(0 : ℂ)] := by
    simp
  have hb : broadcastMul [(0 : ℂ)] ((np_hanning 1024).map Complex.ofReal) =
      some (((np_hanning 1024).map Complex.ofReal).map
        fun y => ([(0 : ℂ)]).headD 0 * y) := by
    unfold broadcastMul
    rw [if_neg, if_pos (show [(0 : ℂ)].length = 1 from rfl)]
    simp [np_hanning_length]
  have hx : ∀ b ∈ ((np_hanning 1024).map Complex.ofReal).map
      (fun y => ([(0 : ℂ)]).headD 0 * y), b = 0 := by
    intro b hb2
    rcases List.mem_map.1 hb2 with ⟨y, _, rfl⟩
    simp
  simp only [transform, hcent, hb]
  exact congrArg Except.ok (log_spectrum_zero 1024 hx)

/-- Claim C1 as amended: for every sample block whose length differs from the
configured fftSize and is not 1 (with fftSize itself not 1 — the configured
sizes are 1024 to 8192 — and the window built at size fftSize), the spectral
transform step fails with InvalidInput; it does not pad, truncate, or produce a
spectrum.  The length-1 exception is forced by numpy's shape-(1,) broadcasting,
exhibited by the counterexample above. -/
theorem claim_C1_amended (n : ℕ) (w : List ℝ) (iq : List ℂ)
    (hw : w.length = n) (hn : n ≠ 1) (hlen : iq.length ≠ n) (h1 : iq.length ≠ 1) :
    transform n w iq = .error .InvalidInput := by
  have hb : broadcastMul (iq.map fun z => z - iq.sum / (iq.length : ℂ))
      (w.map Complex.ofReal) = none := by
    unfold broadcastMul
    rw [if_neg, if_neg, if_neg]
    · simpa [hw] using hn
    · simpa using h1
    · simpa [hw] using hlen
  simp only [transform, hb]

theorem claim_C1_amended_witness :
    (np_hanning 1024).length = 1024 ∧ (1024 : ℕ) ≠ 1 ∧
      [(0 : ℂ), 0].length ≠ 1024 ∧ [(0 : ℂ), 0].length ≠ 1 ∧
      transform 1024 (np_hanning 1024) [(0 : ℂ), 0] = .error .InvalidInput :=
  ⟨np_hanning_length 1024, by norm_num, by norm_num, by norm_num,
    claim_C1_amended 1024 (np_hanning 1024) [(0 : ℂ), 0] (np_hanning_length 1024)
      (by norm_num) (by norm_num) (by norm_num)⟩

/-! ### Spectrum length and clamp bounds -/

lemma transform_ok_length {n : ℕ} {w : List ℝ} {iq : List ℂ} {p : List ℝ}
    (h : transform n w iq = .ok p) : p.length = n := by
  simp only [transform] at h
  split at h
  · simp at h
  · simp only [Except.ok.injEq] at h
    subst h
    simp [fftshiftL_length, npfft_length]

lemma npClip_le {v lo hi : ℝ} : npClip v lo hi ≤ hi := min_le_left _ _

lemma le_npClip {v lo hi : ℝ} (h : lo ≤ hi) : lo ≤ npClip v lo hi :=
  le_min h (le_max_left lo v)

/-! ### Claim C8: a failed read abandons the tick with no mutation -/

/-- Claim C8: for every tick in which the sample-source read fails, the tick
performs no partial mutation — the returned state is exactly the pre-tick state
(in particular the waterfall matrix and the smoothed-ceiling state) — and the
error is surfaced rather than recovered. -/
theorem claim_C8 (s : WaterfallState) (e : SdrError) (h : s.closing = false) :
    update_once s (.error e) = (s, some e) := by
  simp [update_once, h]

/-! ### A concrete state used by the witnesses -/

/-- A concrete small state: FFT size 4, 3 waterfall rows, 60 dB dynamic range,
uninitialised level estimator, not closing. -/
noncomputable def sampleState : WaterfallState where
  sdr_center_freq := 94.9e6
  sdr_sample_rate := 2.4e6
  sdr_gain := .auto
  nfft := 4
  fps := 15
  waterfall_rows := 3
  dynamic_range_db := 60
  window := np_hanning 4
  waterfall := List.replicate 3 (List.replicate 4 (-120))
  db_max_smooth := none
  freqs_mhz := []
  timer_ms := 66
  closing := false

lemma sampleState_invariant : invariantHolds sampleState := by
  refine ⟨np_hanning_length 4, by simp [sampleState], ?_⟩
  intro r hr
  rw [List.eq_of_mem_replicate (show r ∈ List.replicate 3 (List.replicate 4 (-120 : ℝ)) from hr)]
  simp [sampleState]

theorem claim_C8_witness :
    sampleState.closing = false ∧
      update_once sampleState (.error .DeviceError) = (sampleState, some .DeviceError) :=
  ⟨rfl, claim_C8 sampleState .DeviceError rfl⟩

/-! ### Claim C2: reconfiguration rebuilds window, waterfall and level state together -/

/-- Claim C2: whenever the selected FFT size differs from the current one, the
single reconfiguration step rebuilds the window, reallocates the waterfall
matrix and clears the level-estimator state together; afterwards the window
length, every waterfall row length (and any spectrum the transform then
produces) all equal the configured fftSize. -/
theorem claim_C2 (parse : String → Option ℝ) (s : WaterfallState) (fv rv : ℝ)
    (txt : String) (fc fp : ℕ) (h : invariantHolds s) :
    invariantHolds (apply_settings parse s fv rv txt fc fp) ∧
    (apply_settings parse s fv rv txt fc fp).nfft = fc ∧
    (∀ iq p, transform (apply_settings parse s fv rv txt fc fp).nfft
        (apply_settings parse s fv rv txt fc fp).window iq = .ok p →
        p.length = (apply_settings parse s fv rv txt fc fp).nfft) ∧
    (fc ≠ s.nfft →
      (apply_settings parse s fv rv txt fc fp).window = np_hanning fc ∧
      (apply_settings parse s fv rv txt fc fp).waterfall =
        List.replicate s.waterfall_rows (List.replicate fc (-120)) ∧
      (apply_settings parse s fv rv txt fc fp).db_max_smooth = none) := by
  obtain ⟨hwin, hrows, hcols⟩ := h
  by_cases hfc : fc = s.nfft
  · subst hfc
    refine ⟨⟨?_, ?_, ?_⟩, ?_, fun iq p hp => transform_ok_length hp, fun hne => absurd rfl hne⟩
    · simpa [apply_settings] using hwin
    · simpa [apply_settings] using hrows
    · simpa [apply_settings] using hcols
    · simp [apply_settings]
  · have hne : fc ≠ s.nfft := hfc
    refine ⟨⟨?_, ?_, ?_⟩, ?_, fun iq p hp => transform_ok_length hp, fun _ => ⟨?_, ?_, ?_⟩⟩
    · simp [apply_settings, hne, np_hanning_length]
    · simp [apply_settings, hne]
    · intro r hr
      simp only [apply_settings, if_pos hne] at hr ⊢
      rw [List.eq_of_mem_replicate hr]
      simp
    · simp [apply_settings, hne]
    · simp [apply_settings, hne]
    · simp [apply_settings, hne]
    · simp [apply_settings, hne]

theorem claim_C2_witness :
    invariantHolds sampleState ∧
      (invariantHolds (apply_settings (fun _ => none) sampleState 100 2 "auto" 8 30) ∧
      (apply_settings (fun _ => none) sampleState 100 2 "auto" 8 30).nfft = 8 ∧
      (∀ iq p, transform (apply_settings (fun _ => none) sampleState 100 2 "auto" 8 30).nfft
          (apply_settings (fun _ => none) sampleState 100 2 "auto" 8 30).window iq = .ok p →
          p.length = (apply_settings (fun _ => none) sampleState 100 2 "auto" 8 30).nfft) ∧
      (8 ≠ sampleState.nfft →
        (apply_settings (fun _ => none) sampleState 100 2 "auto" 8 30).window = np_hanning 8 ∧
        (apply_settings (fun _ => none) sampleState 100 2 "auto" 8 30).waterfall =
          List.replicate sampleState.waterfall_rows (List.replicate 8 (-120)) ∧
        (apply_settings (fun _ => none) sampleState 100 2 "auto" 8 30).db_max_smooth = none)) :=
  ⟨sampleState_invariant,
    claim_C2 (fun _ => none) sampleState 100 2 "auto" 8 30 sampleState_invariant⟩

/-! ### Claim C10: applying settings with an unchanged FFT size -/

/-- Claim C10: when the selected FFT size equals the current fftSize,
apply_settings leaves the waterfall matrix contents, the window coefficients
and the level-estimator smoothed-ceiling state unchanged (as well as the FFT
size, the row count, the dynamic range and the closing flag); only the device
parameters, the frame rate / timer and the frequency-axis mapping may change. -/
theorem claim_C10 (parse : String → Option ℝ) (s : WaterfallState) (fv rv : ℝ)
    (txt : String) (fc fp : ℕ) (hfc : fc = s.nfft) :
    (apply_settings parse s fv rv txt fc fp).waterfall = s.waterfall ∧
    (apply_settings parse s fv rv txt fc fp).window = s.window ∧
    (apply_settings parse s fv rv txt fc fp).db_max_smooth = s.db_max_smooth ∧
    (apply_settings parse s fv rv txt fc fp).nfft = s.nfft ∧
    (apply_settings parse s fv rv txt fc fp).waterfall_rows = s.waterfall_rows ∧
    (apply_settings parse s fv rv txt fc fp).dynamic_range_db = s.dynamic_range_db ∧
    (apply_settings parse s fv rv txt fc fp).closing = s.closing := by
  subst hfc
  simp [apply_settings]

theorem claim_C10_witness :
    (4 : ℕ) = sampleState.nfft ∧
      ((apply_settings (fun _ => none) sampleState 100 2 "35" 4 30).waterfall =
          sampleState.waterfall ∧
        (apply_settings (fun _ => none) sampleState 100 2 "35" 4 30).window =
          sampleState.window ∧
        (apply_settings (fun _ => none) sampleState 100 2 "35" 4 30).db_max_smooth =
          sampleState.db_max_smooth ∧
        (apply_settings (fun _ => none) sampleState 100 2 "35" 4 30).nfft =
          sampleState.nfft ∧
        (apply_settings (fun _ => none) sampleState 100 2 "35" 4 30).waterfall_rows =
          sampleState.waterfall_rows ∧
        (apply_settings (fun _ => none) sampleState 100 2 "35" 4 30).dynamic_range_db =
          sampleState.dynamic_range_db ∧
        (apply_settings (fun _ => none) sampleState 100 2 "35" 4 30).closing =
          sampleState.closing) :=
  ⟨rfl, claim_C10 (fun _ => none) sampleState 100 2 "35" 4 30 rfl⟩

/-! ### Claim C9: invalid gain text is swallowed, prior gain retained -/

/-- Claim C9: for every gain text that (after the stripping and lowercasing of
line 145) is neither "auto" nor parseable as a number, apply_settings retains
the prior gain
and otherwise behaves exactly as any other reconfiguration with the same
remaining inputs: the result differs from the run with any other gain text
only in the gain field, which keeps its prior value. -/
theorem claim_C9 (parse : String → Option ℝ) (s : WaterfallState) (fv rv : ℝ)
    (txt : String) (fc fp : ℕ)
    (hna : txt ≠ "auto") (hpf : parse txt = none) :
    (apply_settings parse s fv rv txt fc fp).sdr_gain = s.sdr_gain ∧
    ∀ txt2 : String,
      apply_settings parse s fv rv txt fc fp =
        { apply_settings parse s fv rv txt2 fc fp with sdr_gain := s.sdr_gain } := by
  constructor
  · simp [apply_settings, hna, hpf]
  · intro t2
    apply WaterfallState.ext <;> simp [apply_settings, hna, hpf]

theorem claim_C9_witness :
    (("x" : String) ≠ "auto") ∧ ((fun _ => (none : Option ℝ)) ("x" : String) = none) ∧
      ((apply_settings (fun _ => none) sampleState 100 2 "x" 8 30).sdr_gain =
          sampleState.sdr_gain ∧
        ∀ txt2 : String,
          apply_settings (fun _ => none) sampleState 100 2 "x" 8 30 =
            { apply_settings (fun _ => none) sampleState 100 2 txt2 8 30 with
                sdr_gain := sampleState.sdr_gain }) :=
  ⟨by decide, rfl,
    claim_C9 (fun _ => none) sampleState 100 2 "x" 8 30 (by decide) rfl⟩

/-! ### Claims C5 and C3: level estimation and the clamp on pushed values -/

/-- Claim C5: on every successful tick the 99th percentile of the spectrum is
the ceiling candidate; an uninitialised estimator adopts the candidate exactly,
otherwise the smoothed ceiling becomes 0.9 · previous + 0.1 · candidate; the
floor passed to the waterfall push is the smoothed ceiling minus
dynamic_range_db; nothing else in the state changes. -/
theorem claim_C5 (s : WaterfallState) (iq : List ℂ) (p : List ℝ)
    (hc : s.closing = false) (ht : transform s.nfft s.window iq = .ok p) :
    update_once s (.ok iq) =
      ({ s with
          db_max_smooth := some (match s.db_max_smooth with
            | none => np_percentile99 p
            | some prev => 0.9 * prev + 0.1 * np_percentile99 p)
          waterfall := wf_push s.waterfall p
            ((match s.db_max_smooth with
              | none => np_percentile99 p
              | some prev => 0.9 * prev + 0.1 * np_percentile99 p) - s.dynamic_range_db)
            (match s.db_max_smooth with
              | none => np_percentile99 p
              | some prev => 0.9 * prev + 0.1 * np_percentile99 p) }, none) := by
  cases hsm : s.db_max_smooth <;> simp [update_once, hc, ht, hsm]

theorem claim_C5_witness :
    sampleState.closing = false ∧
      transform sampleState.nfft sampleState.window (List.replicate 4 0) =
        .ok (List.replicate 4 (20 * Real.logb 10 (1e-12))) ∧
      update_once sampleState (.ok (List.replicate 4 0)) =
        ({ sampleState with
            db_max_smooth := some (match sampleState.db_max_smooth with
              | none => np_percentile99 (List.replicate 4 (20 * Real.logb 10 (1e-12)))
              | some prev => 0.9 * prev +
                  0.1 * np_percentile99 (List.replicate 4 (20 * Real.logb 10 (1e-12))))
            waterfall := wf_push sampleState.waterfall
              (List.replicate 4 (20 * Real.logb 10 (1e-12)))
              ((match sampleState.db_max_smooth with
                | none => np_percentile99 (List.replicate 4 (20 * Real.logb 10 (1e-12)))
                | some prev => 0.9 * prev +
                    0.1 * np_percentile99 (List.replicate 4 (20 * Real.logb 10 (1e-12)))) -
                sampleState.dynamic_range_db)
              (match sampleState.db_max_smooth with
                | none => np_percentile99 (List.replicate 4 (20 * Real.logb 10 (1e-12)))
                | some prev => 0.9 * prev +
                    0.1 * np_percentile99 (List.replicate 4 (20 * Real.logb 10 (1e-12)))) },
          none) :=
  ⟨rfl, by simpa [sampleState] using transform_replicate_zero 4,
    claim_C5 sampleState (List.replicate 4 0)
      (List.replicate 4 (20 * Real.logb 10 (1e-12))) rfl
      (by simpa [sampleState] using transform_replicate_zero 4)⟩

/-- Claim C3: every value written into the waterfall by a push lies between the
floor and the ceiling of that push (saturating clamp): the tick writes exactly
the clamped spectrum as the newest row, and with floor = ceiling -
dynamic_range_db (nonnegative dynamic range) every written value v satisfies
floor ≤ v ≤ ceiling. -/
theorem claim_C3 (s : WaterfallState) (iq : List ℂ) (p : List ℝ)
    (hc : s.closing = false) (hd : 0 ≤ s.dynamic_range_db)
    (ht : transform s.nfft s.window iq = .ok p) :
    ∃ ceiling floor : ℝ, floor = ceiling - s.dynamic_range_db ∧
      (update_once s (.ok iq)).1.db_max_smooth = some ceiling ∧
      ((update_once s (.ok iq)).1.waterfall).getLastD [] =
        p.map (fun v => npClip v floor ceiling) ∧
      ∀ v ∈ ((update_once s (.ok iq)).1.waterfall).getLastD [],
        floor ≤ v ∧ v ≤ ceiling := by
  refine ⟨(match s.db_max_smooth with
    | none => np_percentile99 p
    | some prev => 0.9 * prev + 0.1 * np_percentile99 p), _, rfl, ?_, ?_, ?_⟩
  · cases hsm : s.db_max_smooth <;> simp [update_once, hc, ht, hsm]
  · cases hsm : s.db_max_smooth <;>
      simp [update_once, hc, ht, hsm, wf_push, List.getLastD_concat]
  · intro v hv
    have hlast : ((update_once s (.ok iq)).1.waterfall).getLastD [] =
        p.map (fun x => npClip x
          ((match s.db_max_smooth with
            | none => np_percentile99 p
            | some prev => 0.9 * prev + 0.1 * np_percentile99 p) - s.dynamic_range_db)
          (match s.db_max_smooth with
            | none => np_percentile99 p
            | some prev => 0.9 * prev + 0.1 * np_percentile99 p)) := by
      cases hsm : s.db_max_smooth <;>
        simp [update_once, hc, ht, hsm, wf_push, List.getLastD_concat]
    rw [hlast] at hv
    rcases List.mem_map.1 hv with ⟨x, _, rfl⟩
    exact ⟨le_npClip (sub_le_self _ hd), npClip_le⟩

theorem claim_C3_witness :
    sampleState.closing = false ∧ 0 ≤ sampleState.dynamic_range_db ∧
      transform sampleState.nfft sampleState.window (List.replicate 4 0) =
        .ok (List.replicate 4 (20 * Real.logb 10 (1e-12))) ∧
      (∃ ceiling floor : ℝ, floor = ceiling - sampleState.dynamic_range_db ∧
        (update_once sampleState (.ok (List.replicate 4 0))).1.db_max_smooth = some ceiling ∧
        ((update_once sampleState (.ok (List.replicate 4 0))).1.waterfall).getLastD [] =
          (List.replicate 4 (20 * Real.logb 10 (1e-12))).map
            (fun v => npClip v floor ceiling) ∧
        ∀ v ∈ ((update_once sampleState (.ok (List.replicate 4 0))).1.waterfall).getLastD [],
          floor ≤ v ∧ v ≤ ceiling) :=
  ⟨rfl, by norm_num [sampleState],
    by simpa [sampleState] using transform_replicate_zero 4,
    claim_C3 sampleState (List.replicate 4 0)
      (List.replicate 4 (20 * Real.logb 10 (1e-12))) rfl
      (by norm_num [sampleState])
      (by simpa [sampleState] using transform_replicate_zero 4)⟩

/-! ### Claim C4: scrolling correctness of repeated pushes -/

lemma foldl_wf_push_le :
    ∀ (L : List (List ℝ × ℝ × ℝ)) (wf : List (List ℝ)), L.length ≤ wf.length →
      L.foldl (fun m t => wf_push m t.1 t.2.1 t.2.2) wf =
        wf.drop L.length ++ L.map (fun t => t.1.map fun v => npClip v t.2.1 t.2.2) := by
  intro L
  induction L with
  | nil => intro wf _; simp
  | cons a L ih =>
    intro wf h
    simp only [List.length_cons] at h
    simp only [List.foldl_cons]
    rw [ih (wf_push wf a.1 a.2.1 a.2.2) (by simp [wf_push]; omega)]
    simp only [wf_push]
    rw [List.drop_append_of_le_length (by simp; omega), List.append_assoc]
    simp only [List.length_cons, List.map_cons, List.singleton_append]
    congr 1
    rw [← List.drop_one, List.drop_drop, Nat.add_comm]

lemma getD_drop_map {α β : Type} (f : α → β) (L : List α) (i : ℕ) (d : α)
    (h : 1 + i < L.length) :
    ((L.drop 1).map f).getD i (f d) = f (L.getD (1 + i) d) := by
  rw [List.getD_eq_getElem _ _ (by simp only [List.length_map, List.length_drop]; omega),
    List.getElem_map, List.getElem_drop, List.getD_eq_getElem _ _ h]

/-- Claim C4: for a waterfall matrix with R rows, pushing R + 1 spectra (each
with its floor and ceiling) in order leaves the matrix equal to the clamped
spectra 2 … R + 1 in order — the first pushed spectrum is fully evicted — so
row 0 is the clamped second spectrum and row R - 1 the clamped last one. -/
theorem claim_C4 (R : ℕ) (hR : 0 < R) (wf : List (List ℝ)) (hwf : wf.length = R)
    (L : List (List ℝ × ℝ × ℝ)) (hL : L.length = R + 1) :
    L.foldl (fun m t => wf_push m t.1 t.2.1 t.2.2) wf =
      (L.drop 1).map (fun t => t.1.map fun v => npClip v t.2.1 t.2.2) ∧
    (L.foldl (fun m t => wf_push m t.1 t.2.1 t.2.2) wf).getD 0 [] =
      (fun t : List ℝ × ℝ × ℝ => t.1.map fun v => npClip v t.2.1 t.2.2)
        (L.getD 1 ([], 0, 0)) ∧
    (L.foldl (fun m t => wf_push m t.1 t.2.1 t.2.2) wf).getD (R - 1) [] =
      (fun t : List ℝ × ℝ × ℝ => t.1.map fun v => npClip v t.2.1 t.2.2)
        (L.getD R ([], 0, 0)) := by
  have hmain : L.foldl (fun m t => wf_push m t.1 t.2.1 t.2.2) wf =
      (L.drop 1).map (fun t => t.1.map fun v => npClip v t.2.1 t.2.2) := by
    cases L with
    | nil => simp at hL
    | cons a L2 =>
      simp only [List.length_cons] at hL
      simp only [List.foldl_cons]
      rw [foldl_wf_push_le L2 (wf_push wf a.1 a.2.1 a.2.2) (by simp [wf_push]; omega)]
      rw [List.drop_eq_nil_of_le (by simp [wf_push]; omega)]
      simp
  refine ⟨hmain, ?_, ?_⟩
  · rw [hmain]
    have := getD_drop_map (fun t : List ℝ × ℝ × ℝ => t.1.map fun v => npClip v t.2.1 t.2.2)
      L 0 ([], 0, 0) (by omega)
    simpa using this
  · rw [hmain]
    have := getD_drop_map (fun t : List ℝ × ℝ × ℝ => t.1.map fun v => npClip v t.2.1 t.2.2)
      L (R - 1) ([], 0, 0) (by omega)
    simpa [show 1 + (R - 1) = R from by omega] using this

theorem claim_C4_witness :
    0 < 1 ∧ ([[(5 : ℝ)]] : List (List ℝ)).length = 1 ∧
      ([([1], -1, 1), ([2], -1, 1)] : List (List ℝ × ℝ × ℝ)).length = 1 + 1 ∧
      (([([1], -1, 1), ([2], -1, 1)] : List (List ℝ × ℝ × ℝ)).foldl
          (fun m t => wf_push m t.1 t.2.1 t.2.2) [[(5 : ℝ)]] =
        (([([1], -1, 1), ([2], -1, 1)] : List (List ℝ × ℝ × ℝ)).drop 1).map
          (fun t => t.1.map fun v => npClip v t.2.1 t.2.2) ∧
      (([([1], -1, 1), ([2], -1, 1)] : List (List ℝ × ℝ × ℝ)).foldl
          (fun m t => wf_push m t.1 t.2.1 t.2.2) [[(5 : ℝ)]]).getD 0 [] =
        (fun t : List ℝ × ℝ × ℝ => t.1.map fun v => npClip v t.2.1 t.2.2)
          (([([1], -1, 1), ([2], -1, 1)] : List (List ℝ × ℝ × ℝ)).getD 1 ([], 0, 0)) ∧
      (([([1], -1, 1), ([2], -1, 1)] : List (List ℝ × ℝ × ℝ)).foldl
          (fun m t => wf_push m t.1 t.2.1 t.2.2) [[(5 : ℝ)]]).getD (1 - 1) [] =
        (fun t : List ℝ × ℝ × ℝ => t.1.map fun v => npClip v t.2.1 t.2.2)
          (([([1], -1, 1), ([2], -1, 1)] : List (List ℝ × ℝ × ℝ)).getD 1 ([], 0, 0))) :=
  ⟨by norm_num, rfl, rfl,
    claim_C4 1 (by norm_num) [[(5 : ℝ)]] rfl [([1], -1, 1), ([2], -1, 1)] rfl⟩

/-! ### Claim C7: frequency-axis mapping -/

lemma np_fftfreq_length (n : ℕ) (d : ℝ) : (np_fftfreq n d).length = n := by
  simp [np_fftfreq]

lemma update_freq_axis_getD (n : ℕ) (sr c : ℝ) (hn : 0 < n) (he : n % 2 = 0)
    (hsr : 0 < sr) (i : ℕ) (hi : i < n) :
    (update_freq_axis n sr c).getD i 0 =
      (((i : ℝ) - (n : ℝ) / 2) * (sr / (n : ℝ)) + c) / 1e6 := by
  obtain ⟨m, rfl⟩ : ∃ m, n = m + m := ⟨n / 2, by omega⟩
  have hm : 0 < m := by omega
  have hm0 : (m : ℝ) ≠ 0 := Nat.cast_ne_zero.mpr hm.ne'
  have hsr0 : sr ≠ 0 := hsr.ne'
  have hshift : fftshiftL (np_fftfreq (m + m) (1 / sr)) =
      (np_fftfreq (m + m) (1 / sr)).drop m ++ (np_fftfreq (m + m) (1 / sr)).take m := by
    rw [fftshiftL, np_fftfreq_length, show m + m - (m + m) / 2 = m from by omega]
  have hlen : (update_freq_axis (m + m) sr c).length = m + m := by
    simp [update_freq_axis, fftshiftL_length, np_fftfreq_length]
  rw [update_freq_axis, hshift, List.getD_eq_getElem _ _ (by
    simpa [fftshiftL_length, np_fftfreq_length, hshift] using hi)]
  rw [List.getElem_map]
  rcases Nat.lt_or_ge i m with him | him
  · rw [List.getElem_append_left (by simp [np_fftfreq_length]; omega)]
    rw [List.getElem_drop]
    simp only [np_fftfreq, List.getElem_map, List.getElem_range]
    rw [if_neg (by omega)]
    push_cast
    field_simp
  · rw [List.getElem_append_right (by simp [np_fftfreq_length]; omega)]
    rw [List.getElem_take]
    simp only [np_fftfreq, List.getElem_map, List.getElem_range]
    rw [if_pos (by simp [np_fftfreq_length]; omega)]
    rw [Nat.cast_sub (by simpa [np_fftfreq_length] using him)]
    push_cast
    field_simp

/-- Claim C7: for every center frequency, sample rate and (even, as all four
supported FFT sizes are) bin count n, the frequency-axis mapping assigns
column 0 the lowest edge center - sampleRate / 2, assigns column n - 1 the
highest edge center + sampleRate / 2 - sampleRate / n, with constant bin
spacing sampleRate / n, consistent with the centered FFT ordering (the axis is
stored in MHz, hence the / 1e6). -/
theorem claim_C7 (n : ℕ) (c sr : ℝ) (hn : 0 < n) (he : n % 2 = 0) (hsr : 0 < sr) :
    (update_freq_axis n sr c).getD 0 0 = (c - sr / 2) / 1e6 ∧
    (update_freq_axis n sr c).getD (n - 1) 0 =
      (c + (sr / 2 - sr / (n : ℝ))) / 1e6 ∧
    ∀ i, i + 1 < n →
      (update_freq_axis n sr c).getD (i + 1) 0 - (update_freq_axis n sr c).getD i 0 =
        (sr / (n : ℝ)) / 1e6 := by
  have hn0 : (n : ℝ) ≠ 0 := Nat.cast_ne_zero.mpr hn.ne'
  refine ⟨?_, ?_, ?_⟩
  · rw [update_freq_axis_getD n sr c hn he hsr 0 hn]
    congr 1
    push_cast
    field_simp
    ring
  · rw [update_freq_axis_getD n sr c hn he hsr (n - 1) (by omega)]
    congr 1
    rw [Nat.cast_sub (by omega : 1 ≤ n)]
    push_cast
    field_simp
    ring
  · intro i h
    rw [update_freq_axis_getD n sr c hn he hsr (i + 1) h,
      update_freq_axis_getD n sr c hn he hsr i (by omega)]
    push_cast
    field_simp
    ring

theorem claim_C7_witness :
    0 < 2048 ∧ 2048 % 2 = 0 ∧ (0 : ℝ) < 2.4e6 ∧
      ((update_freq_axis 2048 2.4e6 94.9e6).getD 0 0 = (94.9e6 - 2.4e6 / 2) / 1e6 ∧
      (update_freq_axis 2048 2.4e6 94.9e6).getD (2048 - 1) 0 =
        (94.9e6 + (2.4e6 / 2 - 2.4e6 / (2048 : ℝ))) / 1e6 ∧
      ∀ i, i + 1 < 2048 →
        (update_freq_axis 2048 2.4e6 94.9e6).getD (i + 1) 0 -
            (update_freq_axis 2048 2.4e6 94.9e6).getD i 0 =
          (2.4e6 / (2048 : ℝ)) / 1e6) :=
  ⟨by norm_num, by norm_num, by norm_num,
    claim_C7 2048 94.9e6 2.4e6 (by norm_num) (by norm_num) (by norm_num)⟩
